import Mathlib

/-!
Verification of the on-chain artifact decoder of `fiber-nodes-monit`
(`src/lib/ckb.ts` and its near-duplicate `src/lib/storage.ts`).

Modelling conventions (shallow embedding of the TypeScript source):

* A hex payload is represented by its list of hex-digit values (each a `Nat`,
  one entry per hex character), together with a flag recording whether the
  original string carried the optional `0x` prefix (`HexStr`).  All the
  source's `substring` arithmetic operates on the stripped digit list.
* JavaScript `BigInt('0x' + s)` throws a `SyntaxError` when `s` is empty;
  fallible conversions are therefore modelled in `Except String`.
* `parseInt(s, 16)` returns `NaN` on an empty string; a JS number that may be
  `NaN` is modelled as `Option Nat` (`none` = `NaN`).
* Network fetches (`get_transaction`, indexer queries) are abstracted: the
  pure computation receives the already-resolved data the source destructures
  from the RPC responses.
-/

/-- A hex string: the `0x`-prefix flag and the list of hex-digit values
(one per hex character, already stripped of the prefix). -/
structure HexStr where
  prefixed : Bool
  digits : List Nat
deriving DecidableEq, Repr

/-- `hex.startsWith('0x') ? hex.substring(2) : hex` — the stripped digit list. -/
def HexStr.strip (h : HexStr) : List Nat := h.digits

/-- Value of a hex digit string read directly (big-endian), as JS
`BigInt('0x' + s)` computes for nonempty `s`. -/
def hexNum (ds : List Nat) : Nat := ds.foldl (fun a d => a * 16 + d) 0

/-- JS `BigInt('0x' + s)`: throws `SyntaxError: Cannot convert 0x to a BigInt`
when `s` is empty, otherwise parses the hex digits big-endian. -/
def bigIntOfHex (ds : List Nat) : Except String Nat :=
  if ds.isEmpty then .error "Cannot convert 0x to a BigInt" else .ok (hexNum ds)

/-- JS `s.substring(a, b)` (with `a ≤ b`): the characters in `[a, min b len)`. -/
def sub (l : List Nat) (a b : Nat) : List Nat := (l.drop a).take (b - a)

/-- The byte-splitting loop `for (i = 0; i < hex.length; i += 2)
bytes.push(hex.substring(i, i + 2))`: chunks of two hex digits (a trailing
lone digit forms a 1-character chunk). -/
def hexBytes : List Nat → List (List Nat)
  | [] => []
  | [a] => [[a]]
  | a :: b :: rest => [a, b] :: hexBytes rest

/-- `littleEndianHexToBigInt(hex)`: pad odd length with a leading `'0'`,
split into bytes, reverse the byte order, parse big-endian via `BigInt`. -/
def littleEndianHexToBigInt (hex : List Nat) : Except String Nat :=
  let hex' := if hex.length % 2 ≠ 0 then 0 :: hex else hex
  bigIntOfHex ((hexBytes hex').reverse.flatten)

/-- `toIntFromBigUint128Le(hexStr)`: strip the `0x` prefix, split into bytes
(no odd-length padding), reverse, parse big-endian via `BigInt`. -/
def toIntFromBigUint128Le (h : HexStr) : Except String Nat :=
  bigIntOfHex ((hexBytes h.strip).reverse.flatten)

/-- JS `parseInt(s, 16)` on a hex-digit string: `NaN` (here `none`) when the
string is empty, otherwise the big-endian value. -/
def parseIntHex (ds : List Nat) : Option Nat :=
  if ds.isEmpty then none else some (hexNum ds)

/-- Specification-side total little-endian reader: split the (even-length)
digit string into bytes, reverse the byte order and read big-endian.  For a
nonempty even-length slice it agrees with `littleEndianHexToBigInt`. -/
def leValue (ds : List Nat) : Nat := hexNum ((hexBytes ds).reverse.flatten)

/-- `ParsedEpoch` — the 64-bit epoch field unpacked by `parseEpoch`. -/
structure ParsedEpoch where
  number : Nat
  index : Nat
  length : Nat
  value : Nat
deriving DecidableEq, Repr

/-- `parseEpoch(epoch)` from `ckb.ts`: shift/mask extraction of the three
sub-fields (bits [0,24), [24,40), [40,56)). -/
def parseEpoch (epoch : Nat) : ParsedEpoch :=
  { number := (epoch >>> 0) &&& ((1 <<< 24) - 1)
    index := (epoch >>> 24) &&& ((1 <<< 16) - 1)
    length := (epoch >>> 40) &&& ((1 <<< 16) - 1)
    value := epoch }

/-- `ParsedLockArgs`.  String fields are kept as digit lists; the optional
fields are `none` when the source leaves them unset.  (`htlcs` is set by the
v1 parser, `settlement_hash`/`settlement_flag` by the v2 parser.) -/
structure ParsedLockArgs where
  pubkey_hash : List Nat
  delay_epoch : ParsedEpoch
  version : Nat
  htlcs : Option (List Nat) := none
  settlement_hash : Option (List Nat) := none
  settlement_flag : Option Nat := none
deriving DecidableEq, Repr

/-- `parseLockArgs(hex)` (v1): 40-char pubkey hash, 16-char little-endian
delay epoch, 16-char little-endian version, remainder returned opaquely. -/
def parseLockArgs (hex : HexStr) : Except String ParsedLockArgs := do
  let data := hex.strip
  let pubkeyHash := sub data 0 40
  let delayEpoch ← littleEndianHexToBigInt (sub data 40 56)
  let version ← littleEndianHexToBigInt (sub data 56 72)
  let htlcs := data.drop 72
  .ok { pubkey_hash := pubkeyHash
        delay_epoch := parseEpoch delayEpoch
        version := version
        htlcs := some htlcs }

/-- `parseLockArgsV2(hex)`: same prefix layout, but the version field is read
with a direct `BigInt('0x' + versionHex)` (no byte reversal), then a 40-char
settlement hash and an optional 2-char settlement flag. -/
def parseLockArgsV2 (hex : HexStr) : Except String ParsedLockArgs := do
  let data := hex.strip
  let pubkeyHash := sub data 0 40
  let delayEpoch ← littleEndianHexToBigInt (sub data 40 56)
  let version ← bigIntOfHex (sub data 56 72)
  let settlementHash := sub data 72 112
  let settlementFlagHex := sub data 112 114
  let settlementFlag := if settlementFlagHex.isEmpty then none else parseIntHex settlementFlagHex
  .ok { pubkey_hash := pubkeyHash
        delay_epoch := parseEpoch delayEpoch
        version := version
        settlement_hash := some settlementHash
        settlement_flag := settlementFlag }

/-- The revocation payload shared by both witness versions. -/
structure Revocation where
  version : Nat
  pubkey : List Nat
  signature : List Nat
deriving DecidableEq, Repr

/-- The v1 `0xFE` (non-pending-HTLC) payload. -/
structure NonPendingHtlc where
  pubkey : List Nat
  signature : List Nat
deriving DecidableEq, Repr

/-- One decoded HTLC entry.  The human-readable `htlc_expiry` locale string is
not modelled; the raw millisecond timestamp `htlc_expiry_timestamp` is. -/
structure ParsedHtlc where
  htlc_type : Option Nat
  payment_amount : Nat
  payment_hash : List Nat
  remote_htlc_pubkey_hash : List Nat
  local_htlc_pubkey_hash : List Nat
  htlc_expiry_timestamp : Nat
deriving DecidableEq, Repr

/-- The v1 default (pending-HTLC) payload. -/
structure PendingHtlc where
  pending_htlc_count : Option Nat
  htlcs : List ParsedHtlc
  signature : List Nat
  preimage : Option (List Nat)
deriving DecidableEq, Repr

/-- One entry of the v2 settlement unlock list. -/
structure SettlementUnlock where
  unlock_type : Option Nat
  with_preimage : Option Nat
  signature : List Nat
  preimage : Option (List Nat)
deriving DecidableEq, Repr

/-- The v2 settlement payload. -/
structure Settlement where
  pending_htlc_count : Option Nat
  htlcs : List ParsedHtlc
  settlement_remote_pubkey_hash : List Nat
  settlement_remote_amount : Nat
  settlement_local_pubkey_hash : List Nat
  settlement_local_amount : Nat
  unlocks : List SettlementUnlock
deriving DecidableEq, Repr

/-- `ParsedWitness`: all variant fields optional, exactly as the TS record.
A field that the source leaves unset is `none`; a JS `NaN` discriminator is
also `none` inside `unlock_type` / `unlock_count`. -/
structure ParsedWitness where
  empty_witness_args : List Nat
  unlock_type : Option Nat := none
  unlock_count : Option Nat := none
  revocation : Option Revocation := none
  non_pending_htlc : Option NonPendingHtlc := none
  pending_htlc : Option PendingHtlc := none
  settlement : Option Settlement := none
  error : Option String := none
deriving DecidableEq, Repr

/-- The shared per-HTLC decoding loop (`for (let i = 0; i < pendingHtlcCount;
i++) ...` in both witness parsers): each iteration consumes 170 hex chars
(type 2, amount 32, payment hash 40, remote hash 40, local hash 40,
expiry 16).  Returns the decoded entries and the final offset. -/
def parseHtlcs (data : List Nat) : Nat → Nat → Except String (List ParsedHtlc × Nat)
  | 0, offset => .ok ([], offset)
  | n + 1, offset => do
    let htlcType := parseIntHex (sub data offset (offset + 2))
    let paymentAmount ← littleEndianHexToBigInt (sub data (offset + 2) (offset + 34))
    let paymentHash := sub data (offset + 34) (offset + 74)
    let remoteHash := sub data (offset + 74) (offset + 114)
    let localHash := sub data (offset + 114) (offset + 154)
    let expiry ← littleEndianHexToBigInt (sub data (offset + 154) (offset + 170))
    let ts := (expiry &&& ((1 <<< 56) - 1)) * 1000
    let (rest, final) ← parseHtlcs data n (offset + 170)
    .ok ({ htlc_type := htlcType
           payment_amount := paymentAmount
           payment_hash := paymentHash
           remote_htlc_pubkey_hash := remoteHash
           local_htlc_pubkey_hash := localHash
           htlc_expiry_timestamp := ts } :: rest, final)

/-- `parseWitness(hex)` (v1): 32-char empty witness args, 2-char
`unlock_type` discriminator, then the `0xFF` / `0xFE` / default branches. -/
def parseWitness (hex : HexStr) : Except String ParsedWitness := do
  let data := hex.strip
  let emptyWitnessArgs := sub data 0 32
  let unlockType := parseIntHex (sub data 32 34)
  if unlockType = some 0xFF then do
    let version ← bigIntOfHex (sub data 34 50)
    .ok { empty_witness_args := emptyWitnessArgs
          unlock_type := unlockType
          revocation := some { version := version
                               pubkey := sub data 50 114
                               signature := data.drop 114 } }
  else if unlockType = some 0xFE then
    .ok { empty_witness_args := emptyWitnessArgs
          unlock_type := unlockType
          non_pending_htlc := some { pubkey := sub data 34 98
                                     signature := data.drop 98 } }
  else do
    let pendingHtlcCount := parseIntHex (sub data 34 36)
    let (htlcs, offset) ← parseHtlcs data (pendingHtlcCount.getD 0) 36
    let signature := sub data offset (offset + 130)
    let preimage := if data.length > offset + 130
      then some (sub data (offset + 130) (offset + 194)) else none
    .ok { empty_witness_args := emptyWitnessArgs
          unlock_type := unlockType
          pending_htlc := some { pending_htlc_count := pendingHtlcCount
                                 htlcs := htlcs
                                 signature := signature
                                 preimage := preimage } }

/-- The v2 settlement unlock loop: `unlock_count` entries of type byte,
with-preimage byte, 130-char signature, and a 64-char preimage only when
the with-preimage byte equals `0x01`.  Never throws. -/
def parseUnlocks (data : List Nat) : Nat → Nat → List SettlementUnlock × Nat
  | 0, offset => ([], offset)
  | n + 1, offset =>
    let unlockType := parseIntHex (sub data offset (offset + 2))
    let withPreimage := parseIntHex (sub data (offset + 2) (offset + 4))
    let signature := sub data (offset + 4) (offset + 134)
    if withPreimage = some 0x01 then
      let preimage := sub data (offset + 134) (offset + 198)
      let (rest, final) := parseUnlocks data n (offset + 198)
      ({ unlock_type := unlockType, with_preimage := withPreimage
         signature := signature, preimage := some preimage } :: rest, final)
    else
      let (rest, final) := parseUnlocks data n (offset + 134)
      ({ unlock_type := unlockType, with_preimage := withPreimage
         signature := signature, preimage := none } :: rest, final)

/-- `parseWitnessV2(hex)`: 32-char empty witness args, 2-char `unlock_count`
discriminator; `0x00` selects the revocation branch (same layout as v1),
anything else (including `NaN`) the settlement branch. -/
def parseWitnessV2 (hex : HexStr) : Except String ParsedWitness := do
  let data := hex.strip
  let emptyWitnessArgs := sub data 0 32
  let unlockCount := parseIntHex (sub data 32 34)
  if unlockCount = some 0x00 then do
    let version ← bigIntOfHex (sub data 34 50)
    .ok { empty_witness_args := emptyWitnessArgs
          unlock_count := unlockCount
          revocation := some { version := version
                               pubkey := sub data 50 114
                               signature := data.drop 114 } }
  else do
    let pendingHtlcCount := parseIntHex (sub data 34 36)
    let (htlcs, off) ← parseHtlcs data (pendingHtlcCount.getD 0) 36
    let remoteHash := sub data off (off + 40)
    let remoteAmount ← littleEndianHexToBigInt (sub data (off + 40) (off + 72))
    let localHash := sub data (off + 72) (off + 112)
    let localAmount ← littleEndianHexToBigInt (sub data (off + 112) (off + 144))
    let (unlocks, _) := parseUnlocks data (unlockCount.getD 0) (off + 144)
    .ok { empty_witness_args := emptyWitnessArgs
          unlock_count := unlockCount
          settlement := some { pending_htlc_count := pendingHtlcCount
                               htlcs := htlcs
                               settlement_remote_pubkey_hash := remoteHash
                               settlement_remote_amount := remoteAmount
                               settlement_local_pubkey_hash := localHash
                               settlement_local_amount := localAmount
                               unlocks := unlocks } }

/-- A CKB script as destructured by `ckb.ts` (`{code_hash, hash_type, args}`).
`args` is a hex payload that is both parsed and used as a map key. -/
structure Script where
  code_hash : String
  hash_type : String
  args : HexStr
deriving DecidableEq, Repr

/-- A transaction output (`{capacity, lock, type?}`), capacity already
converted from its hex form by `BigInt`. -/
structure Output where
  capacity : Nat
  lock : Script
  type : Option Script
deriving DecidableEq, Repr

/-- The data `getTxMessage` obtains for one input after resolving its
previous transaction: the referenced previous output and that output's
`outputs_data` entry. -/
structure ResolvedInput where
  prevOutput : Output
  prevOutputData : HexStr
deriving DecidableEq, Repr

/-- `CellInfo` from `ckb.ts`. -/
structure CellInfo where
  args : HexStr
  capacity : Nat
  lock : Option Script := none
  udt_args : Option HexStr := none
  udt_capacity : Option Nat := none
deriving DecidableEq, Repr

/-- The input half of `getTxMessage`'s per-input callback (lines 327-331):
build a `CellInfo` from the resolved previous output, decoding the UDT
capacity from the previous output's data when a type script is present
(`toIntFromBigUint128Le` throws on empty data). -/
def resolveInputCell (ri : ResolvedInput) : Except String CellInfo :=
  match ri.prevOutput.type with
  | none => .ok { args := ri.prevOutput.lock.args, capacity := ri.prevOutput.capacity
                  lock := some ri.prevOutput.lock }
  | some t => do
    let udtCap ← toIntFromBigUint128Le ri.prevOutputData
    .ok { args := ri.prevOutput.lock.args, capacity := ri.prevOutput.capacity
          lock := some ri.prevOutput.lock
          udt_args := some t.args, udt_capacity := some udtCap }

/-- JS message for calling a string method on `undefined`
(`tx.witnesses[index]` or `tx.outputs_data[i]` out of bounds). -/
def undefinedReadMsg : String :=
  "Cannot read properties of undefined (reading 'startsWith')"

/-- The witness-decoding body inside `getTxMessage`'s `try` block, after the
`argsData.length >= MIN_LOCK_ARGS_HEX_LEN` test: read the version sub-field
at hex offset 56 as little-endian; value `1` selects `parseWitness`,
anything else `parseWitnessV2`.  A missing witness (`undefined`) throws
when the selected parser touches it. -/
def witnessDecodeRaw (witnesses : List HexStr) (idx : Nat) (argsData : List Nat) :
    Except String ParsedWitness := do
  let v1 ← littleEndianHexToBigInt (sub argsData 56 72)
  match witnesses.get? idx with
  | none => Except.error undefinedReadMsg
  | some wh => if v1 = 1 then parseWitness wh else parseWitnessV2 wh

/-- The `catch` clause: a decode exception becomes
`{empty_witness_args: '', error: message}`. -/
def catchWitness : Except String ParsedWitness → ParsedWitness
  | .ok w => w
  | .error e => { empty_witness_args := [], error := some e }

/-- The full guarded decode attempt for one commitment-lock input: nothing is
assigned unless the stripped lock args reach the 72-hex-char minimum. -/
def attemptWitnessDecode (witnesses : List HexStr) (idx : Nat) (argsData : List Nat) :
    Option ParsedWitness :=
  if argsData.length ≥ 72 then some (catchWitness (witnessDecodeRaw witnesses idx argsData))
  else none

/-- The per-input loop of `getTxMessage` (sequential rendering of the
`tx.inputs.map(async ...)` block, promises resolving in input order):
accumulates the input `CellInfo`s and threads the shared `parsedWitness`
state, which a commitment-lock input may set at most once. -/
def nextPw (cch : String) (witnesses : List HexStr) (idx : Nat) (ri : ResolvedInput) :
    Option ParsedWitness → Option ParsedWitness
  | some w => some w
  | none =>
    if ri.prevOutput.lock.code_hash = cch then
      attemptWitnessDecode witnesses idx ri.prevOutput.lock.args.strip
    else none

def processInputs (cch : String) (witnesses : List HexStr) :
    List ResolvedInput → Nat → Option ParsedWitness →
    Except String (List CellInfo × Option ParsedWitness)
  | [], _, pw => .ok ([], pw)
  | ri :: rest, idx, pw => do
    let cell ← resolveInputCell ri
    let res ← processInputs cch witnesses rest (idx + 1) (nextPw cch witnesses idx ri pw)
    .ok (cell :: res.1, res.2)

/-- The output half (`tx.outputs.map((output, i) => ...)`): a missing
`outputs_data[i]` entry throws only when the output carries a type script. -/
def resolveOutputCell (o : Output) (dataEntry : Option HexStr) : Except String CellInfo :=
  match o.type with
  | none => .ok { args := o.lock.args, capacity := o.capacity }
  | some t =>
    match dataEntry with
    | none => .error undefinedReadMsg
    | some d => do
      let udtCap ← toIntFromBigUint128Le d
      .ok { args := o.lock.args, capacity := o.capacity
            udt_args := some t.args, udt_capacity := some udtCap }

/-- The output loop of `getTxMessage`, indexing `outputs_data` alongside. -/
def resolveOutputs (outputsData : List HexStr) :
    List Output → Nat → Except String (List CellInfo)
  | [], _ => .ok []
  | o :: rest, i => do
    let cell ← resolveOutputCell o (outputsData.get? i)
    let cells ← resolveOutputs outputsData rest (i + 1)
    .ok (cell :: cells)

/-- Σ `c.capacity` over a cell list (the `inputCap`/`outputCap` loops). -/
def sumCapacity (cells : List CellInfo) : Nat := (cells.map (·.capacity)).sum

/-- Σ `c.udt_capacity` with absent treated as zero (the `udtFee` loops; the JS
truthiness test skips `0n`, which is the same as adding zero). -/
def sumUdt (cells : List CellInfo) : Nat := (cells.map (fun c => c.udt_capacity.getD 0)).sum

/-- `updateBal`: the balance map is a JS object in insertion order, modelled
as an association list from a cell's raw `args` to its `(ckb, udt)` deltas. -/
def updateBal : List (HexStr × Int × Int) → HexStr → Int → Int → List (HexStr × Int × Int)
  | [], a, c, u => [(a, c, u)]
  | (k, kc, ku) :: rest, a, c, u =>
    if k = a then (k, kc + c, ku + u) :: rest
    else (k, kc, ku) :: updateBal rest a c u

/-- The two `forEach` passes building `balanceMap`: inputs subtract their
(capacity, udt) pair, outputs add theirs. -/
def buildBalanceMap (ins outs : List CellInfo) : List (HexStr × Int × Int) :=
  let m := ins.foldl
    (fun m c => updateBal m c.args (-(c.capacity : Int)) (-((c.udt_capacity.getD 0 : Nat) : Int))) []
  outs.foldl
    (fun m c => updateBal m c.args (c.capacity : Int) ((c.udt_capacity.getD 0 : Nat) : Int)) m

/-- `TxMessage` (block metadata fields, which come from a separate best-effort
header fetch, are not modelled; fees are kept as integers rather than their
decimal-string rendering). -/
structure TxMessage where
  input_cells : List CellInfo
  output_cells : List CellInfo
  fee : Int
  udt_fee : Int
  parsed_witness : Option ParsedWitness
  balance_changes : List (HexStr × Int × Int)
deriving DecidableEq, Repr

/-- The transaction data `getTxMessage` consumes, with every input's previous
output already resolved (the RPC round-trips are abstracted away). -/
structure TxModel where
  inputs : List ResolvedInput
  outputs : List Output
  outputs_data : List HexStr
  witnesses : List HexStr
deriving DecidableEq, Repr

/-- `getTxMessage` (pure part): resolve input and output cells, compute
`fee`/`udt_fee`, build and filter the per-args balance map. -/
def getTxMessage (cch : String) (tx : TxModel) : Except String TxMessage := do
  let res ← processInputs cch tx.witnesses tx.inputs 0 none
  let outputCells ← resolveOutputs tx.outputs_data tx.outputs 0
  .ok { input_cells := res.1
        output_cells := outputCells
        fee := (sumCapacity res.1 : Int) - (sumCapacity outputCells : Int)
        udt_fee := (sumUdt res.1 : Int) - (sumUdt outputCells : Int)
        parsed_witness := res.2
        balance_changes := (buildBalanceMap res.1 outputCells).filter
          (fun e => decide (e.2.1 ≠ 0 ∨ e.2.2 ≠ 0)) }

/-- `getLnCellDeathHash`'s decision on the indexer result: exactly two
matching transactions means the second is the next spend (returned with the
queried lock's code hash); any other count yields `(null, null)`. -/
def getLnCellDeathHash (cellLock : Script) (objects : List String) :
    Option String × Option String :=
  if objects.length = 2 then (objects.get? 1, some cellLock.code_hash)
  else (none, none)

/-- The chain environment seen by the tracer: for a transaction hash, the
lock script of its first output together with the indexer's object list for
that lock (or `none` when `get_transaction` returns `null`). -/
def TraceEnv : Type := String → Option (Script × List String)

/-- One death lookup from a transaction hash: `null` transaction yields
`(null, null)`, otherwise `getLnCellDeathHash` on the fetched data. -/
def deathLookup (env : TraceEnv) (txHash : String) : Option String × Option String :=
  match env txHash with
  | none => (none, none)
  | some (lock, objects) => getLnCellDeathHash lock objects

/-- The `while (currentTx)` loop of `getLnTxTrace` (fuel-bounded rendering;
the accumulated trace is the list of appended transaction hashes): stop when
the lookup yields no next hash, append otherwise, and stop after appending
when the returned code hash differs from the commitment code hash. -/
def traceLoop (env : TraceEnv) (cch : String) :
    Nat → String → List String → List String
  | 0, _, acc => acc
  | fuel + 1, currentTx, acc =>
    match deathLookup env currentTx with
    | (none, _) => acc
    | (some nextTx, codeHash) =>
      if codeHash ≠ some cch then acc ++ [nextTx]
      else traceLoop env cch fuel nextTx (acc ++ [nextTx])

/-- `getLnTxTrace` (hash-level): the opening transaction, then the first
death lookup, then the loop. -/
def getLnTxTrace (env : TraceEnv) (cch : String) (fuel : Nat) (openTx : String) :
    List String :=
  match (deathLookup env openTx).1 with
  | none => [openTx]
  | some nextTx => traceLoop env cch fuel nextTx [openTx, nextTx]

/-- A script as `storage.ts` compares it: three plain strings. -/
structure SScript where
  code_hash : String
  hash_type : String
  args : String
deriving DecidableEq, Repr

/-- `scriptEquals` from `storage.ts`: `code_hash` and `args` compared after
`toLowerCase()`, `hash_type` compared exactly. -/
def scriptEquals (a b : SScript) : Bool :=
  a.code_hash.toLower == b.code_hash.toLower &&
  a.hash_type == b.hash_type &&
  a.args.toLower == b.args.toLower

/-- `LiveCell` (the fields `computeAccountBalance` reads; `capacity` already
converted from hex by `BigInt`). -/
structure LiveCell where
  capacity : Nat
  lock : SScript
  type : Option SScript
  data : HexStr
deriving DecidableEq, Repr

/-- One registered UDT configuration (`udtCfgInfos` entry). -/
structure UdtCfg where
  name : String
  script : SScript
deriving DecidableEq, Repr

/-- `UdtBalance` from `storage.ts`. -/
structure UdtBalance where
  name : String
  typeScript : SScript
  balance : Nat
  cellCount : Nat
deriving DecidableEq, Repr

/-- The map key `` `${matchedUdt.script.code_hash}:${matchedUdt.script.args}` ``. -/
def udtKey (s : SScript) : String := s.code_hash ++ ":" ++ s.args

/-- The UDT amount of a matched cell: the first 16 bytes (32 hex chars) of
cell data read little-endian, zero when the data is shorter. -/
def decodeUdtAmount (data : HexStr) : Nat :=
  let d := data.strip
  if d.length ≥ 32 then leValue (d.take 32) else 0

/-- `udtMap.get`/`set` on a match: update the existing entry
(`balance += amount; cellCount++`) or insert a fresh one. -/
def udtMapInsert : List (String × UdtBalance) → String → UdtCfg → Nat →
    List (String × UdtBalance)
  | [], key, u, amount =>
    [(key, { name := u.name, typeScript := u.script, balance := amount, cellCount := 1 })]
  | (k, b) :: rest, key, u, amount =>
    if k = key then
      (k, { b with balance := b.balance + amount, cellCount := b.cellCount + 1 }) :: rest
    else (k, b) :: udtMapInsert rest key u amount

/-- The per-cell body of `computeAccountBalance`'s loop, acting on the state
`(ckbBalance, ckbCellCount, udtMap)`. -/
def balanceStep (udtCfgInfos : List UdtCfg)
    (st : Nat × Nat × List (String × UdtBalance)) (cell : LiveCell) :
    Nat × Nat × List (String × UdtBalance) :=
  match cell.type with
  | none => (st.1 + cell.capacity, st.2.1 + 1, st.2.2)
  | some t =>
    match udtCfgInfos.find? (fun u => scriptEquals u.script t) with
    | some matchedUdt =>
      (st.1, st.2.1, udtMapInsert st.2.2 (udtKey matchedUdt.script) matchedUdt
        (decodeUdtAmount cell.data))
    | none => (st.1 + cell.capacity, st.2.1 + 1, st.2.2)

/-- `AccountBalance` (the `network` passthrough field is not modelled). -/
structure AccountBalance where
  ckbBalance : Nat
  ckbCellCount : Nat
  udtBalances : List UdtBalance
  cells : List LiveCell
deriving DecidableEq, Repr

/-- `computeAccountBalance(cells, udtCfgInfos, network)`. -/
def computeAccountBalance (cells : List LiveCell) (udtCfgInfos : List UdtCfg) :
    AccountBalance :=
  let st := cells.foldl (balanceStep udtCfgInfos) (0, 0, [])
  { ckbBalance := st.1
    ckbCellCount := st.2.1
    udtBalances := st.2.2.map (·.2)
    cells := cells }

/-- Specification-side (spec §4.4 step 3 / claim C2): the first input, by
position, whose previous output's lock code hash equals the commitment code
hash and whose stripped lock args reach 72 hex characters. -/
def firstQualifying (cch : String) : List ResolvedInput → Nat → Option (Nat × ResolvedInput)
  | [], _ => none
  | ri :: rest, idx =>
    if ri.prevOutput.lock.code_hash = cch ∧ 72 ≤ ri.prevOutput.lock.args.strip.length
    then some (idx, ri)
    else firstQualifying cch rest (idx + 1)

/-- Specification-side decoder selection (claim C2's wording): read the
version sub-field at hex offset 56 (16 chars) as a little-endian integer;
exactly `1` selects the v1 decoder, anything else the v2 decoder. -/
def specSelectedDecode (witnesses : List HexStr) (idx : Nat) (ri : ResolvedInput) :
    Except String ParsedWitness :=
  let argsData := ri.prevOutput.lock.args.strip
  match witnesses.get? idx with
  | none => .error undefinedReadMsg
  | some wh => if leValue (sub argsData 56 72) = 1 then parseWitness wh else parseWitnessV2 wh

/-- Specification-side overall witness policy: decode exactly the first
qualifying input's witness (caught into the error variant on failure);
no qualifying input means no witness. -/
def firstCommitmentDecodeSpec (cch : String) (witnesses : List HexStr)
    (inputs : List ResolvedInput) (startIdx : Nat) : Option ParsedWitness :=
  (firstQualifying cch inputs startIdx).map
    (fun p => catchWitness (specSelectedDecode witnesses p.1 p.2))

/-- Specification-side (claim C8): the registered UDT configuration a cell's
type script matches, if any (first match, comparison via `scriptEquals`). -/
def cellUdtMatch (udtCfgInfos : List UdtCfg) (cell : LiveCell) : Option UdtCfg :=
  cell.type.bind (fun t => udtCfgInfos.find? (fun u => scriptEquals u.script t))

/-- Specification-side: the UDT-map key a cell's amount is attributed to. -/
def matchedKey (udtCfgInfos : List UdtCfg) (cell : LiveCell) : Option String :=
  (cellUdtMatch udtCfgInfos cell).map (fun u => udtKey u.script)

/-- Specification-side base-currency balance: capacities of the cells with no
type script or with an unmatched type script. -/
def specCkbBalance (udtCfgInfos : List UdtCfg) (cells : List LiveCell) : Nat :=
  ((cells.filter (fun c => (cellUdtMatch udtCfgInfos c).isNone)).map (·.capacity)).sum

/-- Specification-side base-currency cell count. -/
def specCkbCount (udtCfgInfos : List UdtCfg) (cells : List LiveCell) : Nat :=
  (cells.filter (fun c => (cellUdtMatch udtCfgInfos c).isNone)).length

/-- Specification-side balance of the UDT keyed `k`: the decoded 128-bit
little-endian amounts of every cell attributed to `k`. -/
def specUdtBalance (udtCfgInfos : List UdtCfg) (cells : List LiveCell) (k : String) : Nat :=
  ((cells.filter (fun c => matchedKey udtCfgInfos c = some k)).map
    (fun c => decodeUdtAmount c.data)).sum

/-- Specification-side cell count of the UDT keyed `k`. -/
def specUdtCount (udtCfgInfos : List UdtCfg) (cells : List LiveCell) (k : String) : Nat :=
  (cells.filter (fun c => matchedKey udtCfgInfos c = some k)).length

/-- Balance recorded in an `AccountBalance` for key `k` (zero when absent). -/
def udtBalanceFor (bs : List UdtBalance) (k : String) : Nat :=
  match bs.find? (fun b => udtKey b.typeScript == k) with
  | some b => b.balance
  | none => 0

/-- Cell count recorded in an `AccountBalance` for key `k` (zero when absent). -/
def udtCountFor (bs : List UdtBalance) (k : String) : Nat :=
  match bs.find? (fun b => udtKey b.typeScript == k) with
  | some b => b.cellCount
  | none => 0

/-! ### Basic facts about the hex primitives -/

theorem hexBytes_flatten : ∀ l : List Nat, (hexBytes l).flatten = l
  | [] => rfl
  | [_] => rfl
  | a :: b :: rest => by simp [hexBytes, hexBytes_flatten rest]

theorem length_reverse_flatten (L : List (List Nat)) :
    L.reverse.flatten.length = L.flatten.length := by
  simp [List.length_flatten, List.sum_reverse]

theorem bigIntOfHex_ok {ds : List Nat} (h : ds ≠ []) :
    bigIntOfHex ds = .ok (hexNum ds) := by
  simp [bigIntOfHex, h]

theorem littleEndianHexToBigInt_ok_even {ds : List Nat} (hne : ds ≠ [])
    (hev : ds.length % 2 = 0) :
    littleEndianHexToBigInt ds = .ok (leValue ds) := by
  unfold littleEndianHexToBigInt
  rw [if_neg (by simp [hev])]
  have hflat : ((hexBytes ds).reverse.flatten).length = ds.length := by
    rw [length_reverse_flatten, hexBytes_flatten]
  have : (hexBytes ds).reverse.flatten ≠ [] := by
    intro hnil
    exact hne (List.length_eq_zero.mp (by rw [← hflat, hnil]; rfl))
  rw [bigIntOfHex_ok this]
  rfl

theorem littleEndianHexToBigInt_ok_of_ne {ds : List Nat} (hne : ds ≠ []) :
    ∃ n, littleEndianHexToBigInt ds = .ok n := by
  unfold littleEndianHexToBigInt
  by_cases hev : ds.length % 2 = 0
  · rw [if_neg (by simp [hev])]
    have hflat : ((hexBytes ds).reverse.flatten).length = ds.length := by
      rw [length_reverse_flatten, hexBytes_flatten]
    have : (hexBytes ds).reverse.flatten ≠ [] := by
      intro hnil
      exact hne (List.length_eq_zero.mp (by rw [← hflat, hnil]; rfl))
    exact ⟨_, by rw [bigIntOfHex_ok this]⟩
  · rw [if_pos (by simp [hev])]
    have hflat : ((hexBytes (0 :: ds)).reverse.flatten).length = (0 :: ds).length := by
      rw [length_reverse_flatten, hexBytes_flatten]
    have : (hexBytes (0 :: ds)).reverse.flatten ≠ [] := by
      intro hnil
      simp [hnil] at hflat
    exact ⟨_, by rw [bigIntOfHex_ok this]⟩

theorem littleEndianHexToBigInt_nil :
    littleEndianHexToBigInt [] = .error "Cannot convert 0x to a BigInt" := rfl

theorem exceptBind_ok {α β ε : Type} (a : α) (f : α → Except ε β) :
    (Except.ok a >>= f) = f a := rfl

theorem exceptBind_error {α β ε : Type} (e : ε) (f : α → Except ε β) :
    ((Except.error e : Except ε α) >>= f) = Except.error e := rfl

theorem exceptIsOk_ok {α ε : Type} (a : α) : (Except.ok a : Except ε α).isOk = true := rfl

theorem exceptIsOk_error {α ε : Type} (e : ε) : (Except.error e : Except ε α).isOk = false := rfl

theorem length_sub (l : List Nat) (a b : Nat) :
    (sub l a b).length = min (b - a) (l.length - a) := by
  simp [sub]

theorem sub_ne_nil {l : List Nat} {a b : Nat} (hab : a < b) (hal : a < l.length) :
    sub l a b ≠ [] := by
  intro h
  have := congrArg List.length h
  rw [length_sub] at this
  simp at this
  omega

theorem sub_eq_nil_of_le {l : List Nat} {a b : Nat} (h : l.length ≤ a) :
    sub l a b = [] := by
  simp [sub, List.drop_eq_nil_of_le h]

/-! ### Claim C9 — epoch unpacking -/

/-- C9: for every 64-bit value `v`, `parseEpoch v` returns `number` equal to
bits [0,24) of `v`, `index` equal to bits [24,40), and `length` equal to bits
[40,56), so that `number + (index <<< 24) + (length <<< 40)` reproduces
`v % 2 ^ 56`, bits above 56 being silently discarded. -/
theorem parseEpoch_unpacks_bits (v : Nat) (h : v < 2 ^ 64) :
    (parseEpoch v).number = v % 2 ^ 24 ∧
    (parseEpoch v).index = v / 2 ^ 24 % 2 ^ 16 ∧
    (parseEpoch v).length = v / 2 ^ 40 % 2 ^ 16 ∧
    (parseEpoch v).number + ((parseEpoch v).index <<< 24) +
      ((parseEpoch v).length <<< 40) = v % 2 ^ 56 := by
  have hn : (parseEpoch v).number = v % 2 ^ 24 := by
    show (v >>> 0) &&& (1 <<< 24 - 1) = v % 2 ^ 24
    rw [show (1 : Nat) <<< 24 - 1 = 2 ^ 24 - 1 by decide, Nat.and_pow_two_sub_one_eq_mod,
      Nat.shiftRight_eq_div_pow, pow_zero, Nat.div_one]
  have hi : (parseEpoch v).index = v / 2 ^ 24 % 2 ^ 16 := by
    show (v >>> 24) &&& (1 <<< 16 - 1) = v / 2 ^ 24 % 2 ^ 16
    rw [show (1 : Nat) <<< 16 - 1 = 2 ^ 16 - 1 by decide, Nat.and_pow_two_sub_one_eq_mod,
      Nat.shiftRight_eq_div_pow]
  have hl : (parseEpoch v).length = v / 2 ^ 40 % 2 ^ 16 := by
    show (v >>> 40) &&& (1 <<< 16 - 1) = v / 2 ^ 40 % 2 ^ 16
    rw [show (1 : Nat) <<< 16 - 1 = 2 ^ 16 - 1 by decide, Nat.and_pow_two_sub_one_eq_mod,
      Nat.shiftRight_eq_div_pow]
  refine ⟨hn, hi, hl, ?_⟩
  rw [hn, hi, hl, Nat.shiftLeft_eq, Nat.shiftLeft_eq]
  omega

/-- Witness for C9 at a concrete 64-bit value. -/
theorem parseEpoch_unpacks_bits_witness :
    (parseEpoch (2 ^ 63 + 123456789)).number = (2 ^ 63 + 123456789) % 2 ^ 24 ∧
    (parseEpoch (2 ^ 63 + 123456789)).index = (2 ^ 63 + 123456789) / 2 ^ 24 % 2 ^ 16 ∧
    (parseEpoch (2 ^ 63 + 123456789)).length = (2 ^ 63 + 123456789) / 2 ^ 40 % 2 ^ 16 ∧
    (parseEpoch (2 ^ 63 + 123456789)).number + ((parseEpoch (2 ^ 63 + 123456789)).index <<< 24) +
      ((parseEpoch (2 ^ 63 + 123456789)).length <<< 40) = (2 ^ 63 + 123456789) % 2 ^ 56 :=
  parseEpoch_unpacks_bits (2 ^ 63 + 123456789) (by norm_num)

/-! ### Claims C1 and C3 — lock-args decoding -/

theorem parseLockArgsV2_ok {h : HexStr} (hlen : 56 < h.strip.length) :
    parseLockArgsV2 h = .ok
      { pubkey_hash := sub h.strip 0 40
        delay_epoch := parseEpoch (leValue (sub h.strip 40 56))
        version := hexNum (sub h.strip 56 72)
        settlement_hash := some (sub h.strip 72 112)
        settlement_flag := if (sub h.strip 112 114).isEmpty then none
                           else parseIntHex (sub h.strip 112 114) } := by
  have h1 : sub h.strip 40 56 ≠ [] := sub_ne_nil (by norm_num) (by omega)
  have h1len : (sub h.strip 40 56).length % 2 = 0 := by
    rw [length_sub]; omega
  have h2 : sub h.strip 56 72 ≠ [] := sub_ne_nil (by norm_num) (by omega)
  simp [parseLockArgsV2, littleEndianHexToBigInt_ok_even h1 h1len, bigIntOfHex_ok h2,
    exceptBind_ok]

theorem parseLockArgs_ok {h : HexStr} (hlen : 56 < h.strip.length) :
    ∃ n, parseLockArgs h = .ok
      { pubkey_hash := sub h.strip 0 40
        delay_epoch := parseEpoch (leValue (sub h.strip 40 56))
        version := n
        htlcs := some (h.strip.drop 72) } := by
  have h1 : sub h.strip 40 56 ≠ [] := sub_ne_nil (by norm_num) (by omega)
  have h1len : (sub h.strip 40 56).length % 2 = 0 := by
    rw [length_sub]; omega
  have h2 : sub h.strip 56 72 ≠ [] := sub_ne_nil (by norm_num) (by omega)
  obtain ⟨vv, hvv⟩ := littleEndianHexToBigInt_ok_of_ne h2
  exact ⟨vv, by simp [parseLockArgs, littleEndianHexToBigInt_ok_even h1 h1len, hvv,
    exceptBind_ok]⟩

/-- The C1 counterexample input: 72 hex chars whose version field is the
byte sequence `01 00 00 00 00 00 00 00`. -/
def lockArgsCex : HexStr :=
  ⟨true, List.replicate 56 0 ++ [0, 1] ++ List.replicate 14 0⟩

/-- C1 counterexample: `parseLockArgsV2` does not return the little-endian
interpretation of the version bytes (it returns `2 ^ 56`, the direct
big-endian reading, where the little-endian reading is `1`). -/
theorem parseLockArgsV2_version_cex :
    (parseLockArgsV2 lockArgsCex).toOption.map ParsedLockArgs.version ≠
      some (leValue (sub lockArgsCex.strip 56 72)) := by
  decide

/-- C1 (amended): for every hex input long enough to contain the field,
`parseLockArgsV2` decodes the 8-byte version field (hex chars 56 to 72 after
stripping the optional `0x` prefix) as a direct big-endian hex integer —
`BigInt('0x' + versionHex)` with no byte reversal — not little-endian. -/
theorem parseLockArgsV2_version_bigEndian (h : HexStr) (hlen : 72 ≤ h.strip.length) :
    ∃ r, parseLockArgsV2 h = .ok r ∧ r.version = hexNum (sub h.strip 56 72) :=
  ⟨_, parseLockArgsV2_ok (by omega), rfl⟩

/-- Witness for the amended C1 at a concrete 72-char input. -/
theorem parseLockArgsV2_version_bigEndian_witness :
    ∃ r, parseLockArgsV2 lockArgsCex = .ok r ∧
      r.version = hexNum (sub lockArgsCex.strip 56 72) :=
  parseLockArgsV2_version_bigEndian lockArgsCex (by decide)

/-- C3 counterexample: on the empty input (shorter than the 72-char minimum)
both parsers throw (`BigInt('0x')` raises a `SyntaxError`) instead of
returning a partially-empty record. -/
theorem parseLockArgs_short_throws_cex :
    (parseLockArgs ⟨false, []⟩).isOk = false ∧
    (parseLockArgsV2 ⟨false, []⟩).isOk = false := by
  decide

/-- C3 (amended): both lock-args parsers return (with partially-empty tail
fields) exactly on stripped inputs longer than 56 hex chars; at 56 chars or
fewer the empty version (or epoch) slice makes `BigInt('0x' + ...)` throw,
so both parsers raise instead of returning. -/
theorem parseLockArgs_short_input (h : HexStr) :
    ((parseLockArgs h).isOk = true ↔ 56 < h.strip.length) ∧
    ((parseLockArgsV2 h).isOk = true ↔ 56 < h.strip.length) ∧
    (56 < h.strip.length → h.strip.length < 72 →
      ∃ r1 r2, parseLockArgs h = .ok r1 ∧ parseLockArgsV2 h = .ok r2 ∧
        r1.htlcs = some [] ∧ r2.settlement_hash = some [] ∧
        r2.settlement_flag = none) := by
  refine ⟨⟨?_, ?_⟩, ⟨?_, ?_⟩, ?_⟩
  · intro hok
    by_contra hshort
    have h2 : sub h.strip 56 72 = [] := sub_eq_nil_of_le (by omega)
    cases hfe : littleEndianHexToBigInt (sub h.strip 40 56) with
    | error e => simp [parseLockArgs, hfe, exceptBind_error, exceptIsOk_error] at hok
    | ok n => simp [parseLockArgs, hfe, h2, littleEndianHexToBigInt_nil, exceptBind_ok,
        exceptBind_error, exceptIsOk_error] at hok
  · intro hlen
    obtain ⟨n, hn⟩ := parseLockArgs_ok hlen
    simp [hn, exceptIsOk_ok]
  · intro hok
    by_contra hshort
    have h2 : sub h.strip 56 72 = [] := sub_eq_nil_of_le (by omega)
    cases hfe : littleEndianHexToBigInt (sub h.strip 40 56) with
    | error e => simp [parseLockArgsV2, hfe, exceptBind_error, exceptIsOk_error] at hok
    | ok n => simp [parseLockArgsV2, hfe, h2, bigIntOfHex, exceptBind_ok, exceptBind_error,
        exceptIsOk_error] at hok
  · intro hlen
    simp [parseLockArgsV2_ok hlen, exceptIsOk_ok]
  · intro hlen hshort
    obtain ⟨n, hn⟩ := parseLockArgs_ok hlen
    have hd72 : h.strip.drop 72 = [] := List.drop_eq_nil_of_le (by omega)
    have hs72 : sub h.strip 72 112 = [] := sub_eq_nil_of_le (by omega)
    have hs112 : sub h.strip 112 114 = [] := sub_eq_nil_of_le (by omega)
    refine ⟨_, _, hn, parseLockArgsV2_ok hlen, ?_, ?_, ?_⟩
    · simp [hd72]
    · simp [hs72]
    · simp [hs112]

/-- Witness for the amended C3 at a concrete 60-char input. -/
theorem parseLockArgs_short_input_witness :
    ((parseLockArgs ⟨true, List.replicate 60 1⟩).isOk = true) ∧
    (∃ r1 r2, parseLockArgs ⟨true, List.replicate 60 1⟩ = .ok r1 ∧
      parseLockArgsV2 ⟨true, List.replicate 60 1⟩ = .ok r2 ∧
      r1.htlcs = some [] ∧ r2.settlement_hash = some [] ∧
      r2.settlement_flag = none) := by
  obtain ⟨h1, _h2, h3⟩ := parseLockArgs_short_input ⟨true, List.replicate 60 1⟩
  exact ⟨h1.mpr (by decide), h3 (by decide) (by decide)⟩

/-! ### Claim C4 — revocation version decoding -/

/-- The C4 concrete v1 input: discriminator `0xFF`, version bytes
`01 00 00 00 00 00 00 00`, 32-byte pubkey, 65-byte signature. -/
def witnessCexFF : HexStr :=
  ⟨true, List.replicate 32 0 ++ [15, 15] ++ [0, 1] ++ List.replicate 14 0 ++
    List.replicate 64 2 ++ List.replicate 130 3⟩

/-- The C4 concrete v2 input: same payload behind discriminator `0x00`. -/
def witnessCex00 : HexStr :=
  ⟨true, List.replicate 32 0 ++ [0, 0] ++ [0, 1] ++ List.replicate 14 0 ++
    List.replicate 64 2 ++ List.replicate 130 3⟩

/-- C4 counterexample: neither revocation branch returns the little-endian
u64 decoding of the 8 bytes following the discriminator — both return the
direct big-endian reading (`2 ^ 56` where little-endian would give `1`). -/
theorem revocation_version_cex :
    ((parseWitness witnessCexFF).toOption.bind ParsedWitness.revocation).map
        Revocation.version ≠ some (leValue (sub witnessCexFF.strip 34 50)) ∧
    ((parseWitnessV2 witnessCex00).toOption.bind ParsedWitness.revocation).map
        Revocation.version ≠ some (leValue (sub witnessCex00.strip 34 50)) := by
  constructor <;> decide

/-- C4 (amended): for every witness whose discriminator byte is `0xFF`
(`parseWitness`, v1) or `0x00` (`parseWitnessV2`, v2), the returned
revocation's version is the direct big-endian hex reading of the 16 hex
chars immediately following the discriminator (not little-endian), and both
versions use the identical revocation layout (same version/pubkey/signature
slices at the same offsets). -/
theorem revocation_version_bigEndian (h : HexStr) (hlen : 35 ≤ h.strip.length) :
    (sub h.strip 32 34 = [15, 15] →
      parseWitness h = .ok
        { empty_witness_args := sub h.strip 0 32
          unlock_type := some 255
          revocation := some { version := hexNum (sub h.strip 34 50)
                               pubkey := sub h.strip 50 114
                               signature := h.strip.drop 114 } }) ∧
    (sub h.strip 32 34 = [0, 0] →
      parseWitnessV2 h = .ok
        { empty_witness_args := sub h.strip 0 32
          unlock_count := some 0
          revocation := some { version := hexNum (sub h.strip 34 50)
                               pubkey := sub h.strip 50 114
                               signature := h.strip.drop 114 } }) := by
  have h2 : sub h.strip 34 50 ≠ [] := sub_ne_nil (by norm_num) (by omega)
  constructor
  · intro hdisc
    have hdv : parseIntHex (sub h.strip 32 34) = some 255 := by rw [hdisc]; rfl
    simp [parseWitness, hdv, bigIntOfHex_ok h2, exceptBind_ok]
  · intro hdisc
    have hdv : parseIntHex (sub h.strip 32 34) = some 0 := by rw [hdisc]; rfl
    simp [parseWitnessV2, hdv, bigIntOfHex_ok h2, exceptBind_ok]

set_option maxRecDepth 8000 in
/-- Witness for the amended C4 at the two concrete inputs. -/
theorem revocation_version_bigEndian_witness :
    parseWitness witnessCexFF = .ok
      { empty_witness_args := sub witnessCexFF.strip 0 32
        unlock_type := some 255
        revocation := some { version := hexNum (sub witnessCexFF.strip 34 50)
                             pubkey := sub witnessCexFF.strip 50 114
                             signature := witnessCexFF.strip.drop 114 } } ∧
    parseWitnessV2 witnessCex00 = .ok
      { empty_witness_args := sub witnessCex00.strip 0 32
        unlock_count := some 0
        revocation := some { version := hexNum (sub witnessCex00.strip 34 50)
                             pubkey := sub witnessCex00.strip 50 114
                             signature := witnessCex00.strip.drop 114 } } :=
  ⟨(revocation_version_bigEndian witnessCexFF (by decide)).1 (by decide),
   (revocation_version_bigEndian witnessCex00 (by decide)).2 (by decide)⟩

/-! ### Cell-resolution characterizations (claims C2, C5, C6, C10) -/

/-- Specification-side UDT capacity of a resolved input: absent type script
counts as zero, otherwise the little-endian reading of the previous output's
data. -/
def specInputUdt (ri : ResolvedInput) : Nat :=
  match ri.prevOutput.type with
  | none => 0
  | some _ => leValue ri.prevOutputData.strip

/-- Specification-side UDT capacity of one output (absent type script or
missing data entry counts as zero). -/
def specOutputUdt (o : Output) (dataEntry : Option HexStr) : Nat :=
  match o.type with
  | none => 0
  | some _ =>
    match dataEntry with
    | none => 0
    | some d => leValue d.strip

/-- Specification-side total UDT capacity of the outputs. -/
def specOutputsUdtSum (outputsData : List HexStr) : List Output → Nat → Nat
  | [], _ => 0
  | o :: rest, i => specOutputUdt o (outputsData.get? i) + specOutputsUdtSum outputsData rest (i + 1)

theorem toIntFromBigUint128Le_ok {d : HexStr} {v : Nat}
    (h : toIntFromBigUint128Le d = .ok v) : v = leValue d.strip := by
  unfold toIntFromBigUint128Le bigIntOfHex at h
  by_cases he : ((hexBytes d.strip).reverse.flatten).isEmpty
  · rw [if_pos he] at h
    cases h
  · rw [if_neg he] at h
    cases h
    rfl

theorem resolveInputCell_char {ri : ResolvedInput} {c : CellInfo}
    (h : resolveInputCell ri = .ok c) :
    c.capacity = ri.prevOutput.capacity ∧ c.args = ri.prevOutput.lock.args ∧
    c.udt_capacity.getD 0 = specInputUdt ri := by
  unfold resolveInputCell at h
  split at h
  · rename_i htype
    cases h
    exact ⟨rfl, rfl, by simp [specInputUdt, htype]⟩
  · rename_i t htype
    cases hd : toIntFromBigUint128Le ri.prevOutputData with
    | error e => rw [hd, exceptBind_error] at h; cases h
    | ok v =>
      rw [hd, exceptBind_ok] at h
      cases h
      exact ⟨rfl, rfl, by simp [specInputUdt, htype, toIntFromBigUint128Le_ok hd]⟩

theorem resolveOutputCell_char {o : Output} {d : Option HexStr} {c : CellInfo}
    (h : resolveOutputCell o d = .ok c) :
    c.capacity = o.capacity ∧ c.args = o.lock.args ∧
    c.udt_capacity.getD 0 = specOutputUdt o d := by
  unfold resolveOutputCell at h
  split at h
  · rename_i htype
    cases h
    exact ⟨rfl, rfl, by simp [specOutputUdt, htype]⟩
  · rename_i t htype
    cases d with
    | none => simp at h
    | some dd =>
      have h2 : (toIntFromBigUint128Le dd >>= fun udtCap =>
          Except.ok { args := o.lock.args, capacity := o.capacity
                      udt_args := some t.args, udt_capacity := some udtCap
                      : CellInfo }) = Except.ok c := h
      cases hv : toIntFromBigUint128Le dd with
      | error e => rw [hv, exceptBind_error] at h2; cases h2
      | ok v =>
        rw [hv, exceptBind_ok] at h2
        cases h2
        exact ⟨rfl, rfl, by
          simp [specOutputUdt, htype, toIntFromBigUint128Le_ok hv]⟩

theorem processInputs_cells (cch : String) (ws : List HexStr) :
    ∀ (inputs : List ResolvedInput) (idx : Nat) (pw : Option ParsedWitness)
      (cells : List CellInfo) (pwf : Option ParsedWitness),
      processInputs cch ws inputs idx pw = .ok (cells, pwf) →
      cells.map (·.capacity) = inputs.map (fun ri => ri.prevOutput.capacity) ∧
      sumUdt cells = (inputs.map specInputUdt).sum
  | [], idx, pw, cells, pwf, h => by
    cases h
    simp [sumUdt]
  | ri :: rest, idx, pw, cells, pwf, h => by
    unfold processInputs at h
    cases hc : resolveInputCell ri with
    | error e => rw [hc, exceptBind_error] at h; cases h
    | ok c =>
      rw [hc, exceptBind_ok] at h
      cases hrec : processInputs cch ws rest (idx + 1) (nextPw cch ws idx ri pw) with
      | error e => rw [hrec, exceptBind_error] at h; cases h
      | ok p =>
        rw [hrec, exceptBind_ok] at h
        cases h
        obtain ⟨hcap, -, hudt⟩ := resolveInputCell_char hc
        obtain ⟨ih1, ih2⟩ := processInputs_cells cch ws rest (idx + 1)
          (nextPw cch ws idx ri pw) p.1 p.2 (by rw [hrec])
        constructor
        · simp [hcap, ih1]
        · simp only [sumUdt, List.map_cons, List.sum_cons] at ih2 ⊢
          rw [hudt, ih2]

theorem resolveOutputs_cells (outputsData : List HexStr) :
    ∀ (outs : List Output) (i : Nat) (cells : List CellInfo),
      resolveOutputs outputsData outs i = .ok cells →
      cells.map (·.capacity) = outs.map (·.capacity) ∧
      sumUdt cells = specOutputsUdtSum outputsData outs i
  | [], i, cells, h => by
    cases h
    simp [sumUdt, specOutputsUdtSum]
  | o :: rest, i, cells, h => by
    unfold resolveOutputs at h
    cases hc : resolveOutputCell o (outputsData.get? i) with
    | error e => rw [hc, exceptBind_error] at h; cases h
    | ok c =>
      rw [hc, exceptBind_ok] at h
      cases hrec : resolveOutputs outputsData rest (i + 1) with
      | error e => rw [hrec, exceptBind_error] at h; cases h
      | ok cs =>
        rw [hrec, exceptBind_ok] at h
        cases h
        obtain ⟨hcap, -, hudt⟩ := resolveOutputCell_char hc
        obtain ⟨ih1, ih2⟩ := resolveOutputs_cells outputsData rest (i + 1) cs hrec
        constructor
        · simp [hcap, ih1]
        · simp only [sumUdt, List.map_cons, List.sum_cons, specOutputsUdtSum] at ih2 ⊢
          rw [hudt, ih2]

/-! ### Witness-selection policy (claims C2 and C5) -/

theorem exceptIsOk_exists {ε α : Type} {e : Except ε α} (h : e.isOk = true) :
    ∃ a, e = .ok a := by
  cases e with
  | error x => simp [Except.isOk, Except.toBool] at h
  | ok a => exact ⟨a, rfl⟩

theorem firstQualifying_cons (cch : String) (ri : ResolvedInput) (rest : List ResolvedInput)
    (idx : Nat) :
    firstQualifying cch (ri :: rest) idx =
      if ri.prevOutput.lock.code_hash = cch ∧ 72 ≤ ri.prevOutput.lock.args.strip.length
      then some (idx, ri) else firstQualifying cch rest (idx + 1) := by
  conv_lhs => unfold firstQualifying

theorem processInputs_pw_some (cch : String) (ws : List HexStr) (w : ParsedWitness) :
    ∀ (inputs : List ResolvedInput) (idx : Nat) (cells : List CellInfo)
      (pwf : Option ParsedWitness),
      processInputs cch ws inputs idx (some w) = .ok (cells, pwf) → pwf = some w
  | [], idx, cells, pwf, h => by cases h; rfl
  | ri :: rest, idx, cells, pwf, h => by
    unfold processInputs at h
    cases hc : resolveInputCell ri with
    | error e => rw [hc, exceptBind_error] at h; cases h
    | ok c =>
      rw [hc, exceptBind_ok] at h
      cases hrec : processInputs cch ws rest (idx + 1) (nextPw cch ws idx ri (some w)) with
      | error e => rw [hrec, exceptBind_error] at h; cases h
      | ok p =>
        rw [hrec, exceptBind_ok] at h
        cases h
        have hn : nextPw cch ws idx ri (some w) = some w := rfl
        rw [hn] at hrec
        exact processInputs_pw_some cch ws w rest (idx + 1) p.1 p.2 (by rw [hrec])

theorem processInputs_pw (cch : String) (ws : List HexStr) :
    ∀ (inputs : List ResolvedInput) (idx : Nat) (cells : List CellInfo)
      (pwf : Option ParsedWitness),
      processInputs cch ws inputs idx none = .ok (cells, pwf) →
      pwf = (firstQualifying cch inputs idx).map
        (fun p => catchWitness (witnessDecodeRaw ws p.1 p.2.prevOutput.lock.args.strip))
  | [], idx, cells, pwf, h => by cases h; rfl
  | ri :: rest, idx, cells, pwf, h => by
    unfold processInputs at h
    cases hc : resolveInputCell ri with
    | error e => rw [hc, exceptBind_error] at h; cases h
    | ok c =>
      rw [hc, exceptBind_ok] at h
      cases hrec : processInputs cch ws rest (idx + 1) (nextPw cch ws idx ri none) with
      | error e => rw [hrec, exceptBind_error] at h; cases h
      | ok p =>
        rw [hrec, exceptBind_ok] at h
        cases h
        by_cases hch : ri.prevOutput.lock.code_hash = cch
        · by_cases hlen : 72 ≤ ri.prevOutput.lock.args.strip.length
          · have hnext : nextPw cch ws idx ri none =
                some (catchWitness (witnessDecodeRaw ws idx ri.prevOutput.lock.args.strip)) := by
              simp [nextPw, hch, attemptWitnessDecode, hlen]
            rw [hnext] at hrec
            have hfin := processInputs_pw_some cch ws _ rest (idx + 1) p.1 p.2 (by rw [hrec])
            rw [hfin]
            rw [firstQualifying_cons, if_pos ⟨hch, hlen⟩]
            rfl
          · have hnext : nextPw cch ws idx ri none = none := by
              simp [nextPw, hch, attemptWitnessDecode, hlen]
            rw [hnext] at hrec
            have hfin := processInputs_pw cch ws rest (idx + 1) p.1 p.2 (by rw [hrec])
            rw [hfin]
            rw [firstQualifying_cons, if_neg (by tauto)]
        · have hnext : nextPw cch ws idx ri none = none := by
            simp [nextPw, hch]
          rw [hnext] at hrec
          have hfin := processInputs_pw cch ws rest (idx + 1) p.1 p.2 (by rw [hrec])
          rw [hfin]
          rw [firstQualifying_cons, if_neg (by tauto)]

theorem firstQualifying_props (cch : String) :
    ∀ (inputs : List ResolvedInput) (idx : Nat) (i : Nat) (ri : ResolvedInput),
      firstQualifying cch inputs idx = some (i, ri) →
      ri.prevOutput.lock.code_hash = cch ∧ 72 ≤ ri.prevOutput.lock.args.strip.length
  | [], idx, i, ri, h => by cases h
  | r :: rest, idx, i, ri, h => by
    rw [firstQualifying_cons] at h
    by_cases hcond : r.prevOutput.lock.code_hash = cch ∧
        72 ≤ r.prevOutput.lock.args.strip.length
    · rw [if_pos hcond] at h
      cases h
      exact hcond
    · rw [if_neg hcond] at h
      exact firstQualifying_props cch rest (idx + 1) i ri h

theorem witnessDecodeRaw_eq_spec (ws : List HexStr) (i : Nat) (ri : ResolvedInput)
    (hlen : 72 ≤ ri.prevOutput.lock.args.strip.length) :
    witnessDecodeRaw ws i ri.prevOutput.lock.args.strip = specSelectedDecode ws i ri := by
  have hne : sub ri.prevOutput.lock.args.strip 56 72 ≠ [] :=
    sub_ne_nil (by norm_num) (by omega)
  have hev : (sub ri.prevOutput.lock.args.strip 56 72).length % 2 = 0 := by
    rw [length_sub]; omega
  unfold witnessDecodeRaw specSelectedDecode
  rw [littleEndianHexToBigInt_ok_even hne hev]
  rfl

instance exceptDecEq {ε α : Type} [DecidableEq ε] [DecidableEq α] :
    DecidableEq (Except ε α)
  | .error a, .error b =>
    if h : a = b then .isTrue (by rw [h]) else .isFalse (by intro hc; cases hc; exact h rfl)
  | .error _, .ok _ => .isFalse (by intro hc; cases hc)
  | .ok _, .error _ => .isFalse (by intro hc; cases hc)
  | .ok a, .ok b =>
    if h : a = b then .isTrue (by rw [h]) else .isFalse (by intro hc; cases hc; exact h rfl)

theorem getTxMessage_eq {cch : String} {tx : TxModel} {msg : TxMessage}
    (hok : getTxMessage cch tx = .ok msg) :
    ∃ cells pwf ocells,
      processInputs cch tx.witnesses tx.inputs 0 none = .ok (cells, pwf) ∧
      resolveOutputs tx.outputs_data tx.outputs 0 = .ok ocells ∧
      msg = { input_cells := cells
              output_cells := ocells
              fee := (sumCapacity cells : Int) - (sumCapacity ocells : Int)
              udt_fee := (sumUdt cells : Int) - (sumUdt ocells : Int)
              parsed_witness := pwf
              balance_changes := (buildBalanceMap cells ocells).filter
                (fun e => decide (e.2.1 ≠ 0 ∨ e.2.2 ≠ 0)) } := by
  unfold getTxMessage at hok
  cases hpi : processInputs cch tx.witnesses tx.inputs 0 none with
  | error e => rw [hpi, exceptBind_error] at hok; cases hok
  | ok res =>
    rw [hpi, exceptBind_ok] at hok
    cases hoc : resolveOutputs tx.outputs_data tx.outputs 0 with
    | error e => rw [hoc, exceptBind_error] at hok; cases hok
    | ok ocells =>
      rw [hoc, exceptBind_ok] at hok
      cases hok
      exact ⟨res.1, res.2, ocells, rfl, rfl, rfl⟩

/-- C2: in `getTxMessage`, a witness decode is attempted only for an input
whose previous output's lock code hash equals the commitment code hash and
whose stripped lock args have at least 72 hex characters; the version
sub-field at hex offset 56 (16 hex chars) is read as a little-endian
integer, `parseWitness` (v1) is selected iff that value equals exactly 1 and
`parseWitnessV2` otherwise; only the first such qualifying input's witness
is decoded and later matches are ignored. -/
theorem getTxMessage_witness_selection (cch : String) (tx : TxModel) (msg : TxMessage)
    (hok : getTxMessage cch tx = .ok msg) :
    msg.parsed_witness = firstCommitmentDecodeSpec cch tx.witnesses tx.inputs 0 := by
  obtain ⟨cells, pwf, ocells, hpi, hoc, hmsg⟩ := getTxMessage_eq hok
  subst hmsg
  show pwf = _
  rw [processInputs_pw cch tx.witnesses tx.inputs 0 cells pwf hpi]
  unfold firstCommitmentDecodeSpec
  cases hq : firstQualifying cch tx.inputs 0 with
  | none => rfl
  | some pr =>
    obtain ⟨hch, hlen⟩ := firstQualifying_props cch tx.inputs 0 pr.1 pr.2 (by rw [hq])
    simp [witnessDecodeRaw_eq_spec tx.witnesses pr.1 pr.2 hlen]

/-- The commitment lock used by the concrete C2/C5 witnesses: code hash
matching, args exactly 72 zero hex chars. -/
def lockC : Script := { code_hash := "c", hash_type := "type", args := ⟨true, List.replicate 72 0⟩ }

/-- A resolved input guarded by `lockC`, with no type script. -/
def riC : ResolvedInput :=
  { prevOutput := { capacity := 5, lock := lockC, type := none }, prevOutputData := ⟨true, []⟩ }

/-- Concrete transaction: one commitment input whose witness (`0x`, empty)
fails to decode. -/
def txC : TxModel := { inputs := [riC], outputs := [], outputs_data := [], witnesses := [⟨true, []⟩] }

set_option maxRecDepth 4000 in
/-- Witness for C2 at the concrete transaction `txC`: the version field of
`lockC` is all zeros (≠ 1), so v2 decoding is selected, and its failure is
caught into the error variant. -/
theorem getTxMessage_witness_selection_witness :
    (some { empty_witness_args := [], error := some "Cannot convert 0x to a BigInt" }
      : Option ParsedWitness) = firstCommitmentDecodeSpec "c" txC.witnesses txC.inputs 0 :=
  getTxMessage_witness_selection "c" txC
    { input_cells := [{ args := ⟨true, List.replicate 72 0⟩, capacity := 5, lock := some lockC }]
      output_cells := []
      fee := 5
      udt_fee := 0
      parsed_witness :=
        some { empty_witness_args := [], error := some "Cannot convert 0x to a BigInt" }
      balance_changes := [(⟨true, List.replicate 72 0⟩, -5, 0)] }
    (by decide)

theorem processInputs_ok_of_resolvable (cch : String) (ws : List HexStr) :
    ∀ (inputs : List ResolvedInput) (idx : Nat) (pw : Option ParsedWitness),
      (∀ ri ∈ inputs, (resolveInputCell ri).isOk = true) →
      ∃ cells pwf, processInputs cch ws inputs idx pw = .ok (cells, pwf)
  | [], idx, pw, _ => ⟨[], pw, rfl⟩
  | ri :: rest, idx, pw, hres => by
    obtain ⟨c, hc⟩ := exceptIsOk_exists (hres ri (List.mem_cons_self ri rest))
    obtain ⟨cells, pwf, hrec⟩ := processInputs_ok_of_resolvable cch ws rest (idx + 1)
      (nextPw cch ws idx ri pw) (fun r hr => hres r (List.mem_cons_of_mem ri hr))
    exact ⟨c :: cells, pwf, by
      unfold processInputs
      rw [hc, exceptBind_ok, hrec, exceptBind_ok]⟩

/-- C5: any exception raised while decoding the commitment input's witness
(`parseWitness` or `parseWitnessV2`) is caught and recorded as a
`ParsedWitness` carrying an error message rather than propagated, and
provided the cell resolutions themselves succeed, the build still returns a
complete `TxMessage` with `fee`, `udt_fee` and `balance_changes` computed. -/
theorem getTxMessage_catches_witness_errors (cch : String) (tx : TxModel)
    (hins : ∀ ri ∈ tx.inputs, (resolveInputCell ri).isOk = true)
    (houts : (resolveOutputs tx.outputs_data tx.outputs 0).isOk = true) :
    ∃ msg, getTxMessage cch tx = .ok msg ∧
      msg.fee = (sumCapacity msg.input_cells : Int) - (sumCapacity msg.output_cells : Int) ∧
      msg.udt_fee = (sumUdt msg.input_cells : Int) - (sumUdt msg.output_cells : Int) ∧
      msg.balance_changes = (buildBalanceMap msg.input_cells msg.output_cells).filter
        (fun e => decide (e.2.1 ≠ 0 ∨ e.2.2 ≠ 0)) ∧
      ∀ i ri e, firstQualifying cch tx.inputs 0 = some (i, ri) →
        witnessDecodeRaw tx.witnesses i ri.prevOutput.lock.args.strip = .error e →
        msg.parsed_witness = some { empty_witness_args := [], error := some e } := by
  obtain ⟨cells, pwf, hpi⟩ :=
    processInputs_ok_of_resolvable cch tx.witnesses tx.inputs 0 none hins
  obtain ⟨ocells, hoc⟩ := exceptIsOk_exists houts
  refine ⟨{ input_cells := cells
            output_cells := ocells
            fee := (sumCapacity cells : Int) - (sumCapacity ocells : Int)
            udt_fee := (sumUdt cells : Int) - (sumUdt ocells : Int)
            parsed_witness := pwf
            balance_changes := (buildBalanceMap cells ocells).filter
              (fun e => decide (e.2.1 ≠ 0 ∨ e.2.2 ≠ 0)) }, ?_, rfl, rfl, rfl, ?_⟩
  · unfold getTxMessage
    rw [hpi, exceptBind_ok, hoc, exceptBind_ok]
  · intro i ri e hq hraw
    show pwf = _
    rw [processInputs_pw cch tx.witnesses tx.inputs 0 cells pwf hpi, hq]
    simp [catchWitness, hraw]

set_option maxRecDepth 4000 in
/-- Witness for C5 at the concrete transaction `txC`, whose commitment
input's witness decode throws. -/
theorem getTxMessage_catches_witness_errors_witness :
    ∃ msg, getTxMessage "c" txC = .ok msg ∧
      msg.fee = (sumCapacity msg.input_cells : Int) - (sumCapacity msg.output_cells : Int) ∧
      msg.udt_fee = (sumUdt msg.input_cells : Int) - (sumUdt msg.output_cells : Int) ∧
      msg.balance_changes = (buildBalanceMap msg.input_cells msg.output_cells).filter
        (fun e => decide (e.2.1 ≠ 0 ∨ e.2.2 ≠ 0)) ∧
      ∀ i ri e, firstQualifying "c" txC.inputs 0 = some (i, ri) →
        witnessDecodeRaw txC.witnesses i ri.prevOutput.lock.args.strip = .error e →
        msg.parsed_witness = some { empty_witness_args := [], error := some e } :=
  getTxMessage_catches_witness_errors "c" txC (by decide) (by decide)

/-! ### Claim C6 — fee and UDT fee -/

/-- A plain (non-commitment) lock used by the fee demos. -/
def lockA : Script := { code_hash := "a", hash_type := "type", args := ⟨true, [1]⟩ }

/-- The spec's synthetic 1-input/1-output transaction: input capacity 1000,
output capacity 990. -/
def feeDemoTx : TxModel :=
  { inputs := [{ prevOutput := { capacity := 1000, lock := lockA, type := none }
                 prevOutputData := ⟨true, []⟩ }]
    outputs := [{ capacity := 990, lock := lockA, type := none }]
    outputs_data := []
    witnesses := [] }

/-- The same transaction with output capacity 1010: the fee is negative and
still returned. -/
def overpayDemoTx : TxModel :=
  { inputs := [{ prevOutput := { capacity := 1000, lock := lockA, type := none }
                 prevOutputData := ⟨true, []⟩ }]
    outputs := [{ capacity := 1010, lock := lockA, type := none }]
    outputs_data := []
    witnesses := [] }

/-- C6: `getTxMessage` returns `fee` equal to the sum of all resolved input
capacities minus the sum of all output capacities, and `udt_fee` equal to
the sum of input UDT capacities minus output UDT capacities with absent UDT
capacity treated as zero; the values are signed and returned without
rejection (the overpay demo yields `-10`), and the synthetic
1-input/1-output 1000/990 transaction yields fee 10. -/
theorem getTxMessage_fee_formula (cch : String) (tx : TxModel) (msg : TxMessage)
    (hok : getTxMessage cch tx = .ok msg) :
    msg.fee = (((tx.inputs.map (fun ri => ri.prevOutput.capacity)).sum : Nat) : Int) -
      (((tx.outputs.map (·.capacity)).sum : Nat) : Int) ∧
    msg.udt_fee = (((tx.inputs.map specInputUdt).sum : Nat) : Int) -
      ((specOutputsUdtSum tx.outputs_data tx.outputs 0 : Nat) : Int) ∧
    (getTxMessage "h" feeDemoTx).toOption.map TxMessage.fee = some 10 ∧
    (getTxMessage "h" overpayDemoTx).toOption.map TxMessage.fee = some (-10) := by
  obtain ⟨cells, pwf, ocells, hpi, hoc, hmsg⟩ := getTxMessage_eq hok
  subst hmsg
  obtain ⟨hci, hui⟩ := processInputs_cells cch tx.witnesses tx.inputs 0 none cells pwf hpi
  obtain ⟨hco, huo⟩ := resolveOutputs_cells tx.outputs_data tx.outputs 0 ocells hoc
  refine ⟨?_, ?_, by decide, by decide⟩
  · show (sumCapacity cells : Int) - (sumCapacity ocells : Int) = _
    unfold sumCapacity
    rw [hci, hco]
  · show (sumUdt cells : Int) - (sumUdt ocells : Int) = _
    rw [hui, huo]

/-- Witness for C6 at the concrete 1000/990 transaction. -/
theorem getTxMessage_fee_formula_witness :
    (((feeDemoTx.inputs.map (fun ri => ri.prevOutput.capacity)).sum : Nat) : Int) -
        (((feeDemoTx.outputs.map (·.capacity)).sum : Nat) : Int) = 10 ∧
    (getTxMessage "h" feeDemoTx).toOption.map TxMessage.fee = some 10 := by
  have hmain := getTxMessage_fee_formula "h" feeDemoTx
    { input_cells := [{ args := ⟨true, [1]⟩, capacity := 1000, lock := some lockA }]
      output_cells := [{ args := ⟨true, [1]⟩, capacity := 990 }]
      fee := 10
      udt_fee := 0
      parsed_witness := none
      balance_changes := [(⟨true, [1]⟩, -10, 0)] }
    (by decide)
  exact ⟨by rw [← hmain.1], hmain.2.2.1⟩

/-! ### Claim C10 — conservation between balance changes and fees -/

/-- Sum of the per-address CKB deltas of a balance map. -/
def mapCkbSum (m : List (HexStr × Int × Int)) : Int := (m.map (fun e => e.2.1)).sum

/-- Sum of the per-address UDT deltas of a balance map. -/
def mapUdtSum (m : List (HexStr × Int × Int)) : Int := (m.map (fun e => e.2.2)).sum

theorem updateBal_sums :
    ∀ (m : List (HexStr × Int × Int)) (a : HexStr) (c u : Int),
      mapCkbSum (updateBal m a c u) = mapCkbSum m + c ∧
      mapUdtSum (updateBal m a c u) = mapUdtSum m + u
  | [], a, c, u => by simp [updateBal, mapCkbSum, mapUdtSum]
  | (k, kc, ku) :: rest, a, c, u => by
    by_cases hk : k = a
    · simp only [updateBal, if_pos hk, mapCkbSum, mapUdtSum, List.map_cons, List.sum_cons]
      constructor <;> ring
    · simp only [updateBal, if_neg hk, mapCkbSum, mapUdtSum, List.map_cons, List.sum_cons]
      obtain ⟨ih1, ih2⟩ := updateBal_sums rest a c u
      simp only [mapCkbSum, mapUdtSum] at ih1 ih2
      rw [ih1, ih2]
      constructor <;> ring

theorem foldl_updateBal_sums (g1 g2 : CellInfo → Int) :
    ∀ (cellsL : List CellInfo) (m : List (HexStr × Int × Int)),
      mapCkbSum (cellsL.foldl (fun m c => updateBal m c.args (g1 c) (g2 c)) m) =
        mapCkbSum m + (cellsL.map g1).sum ∧
      mapUdtSum (cellsL.foldl (fun m c => updateBal m c.args (g1 c) (g2 c)) m) =
        mapUdtSum m + (cellsL.map g2).sum
  | [], m => by simp
  | c :: rest, m => by
    simp only [List.foldl_cons, List.map_cons, List.sum_cons]
    obtain ⟨ih1, ih2⟩ := foldl_updateBal_sums g1 g2 rest (updateBal m c.args (g1 c) (g2 c))
    obtain ⟨hu1, hu2⟩ := updateBal_sums m c.args (g1 c) (g2 c)
    rw [ih1, ih2, hu1, hu2]
    constructor <;> ring

theorem sum_map_neg_cast (l : List CellInfo) (f : CellInfo → Nat) :
    (l.map (fun c => -((f c : Nat) : Int))).sum = -(((l.map f).sum : Nat) : Int) := by
  induction l with
  | nil => simp
  | cons c rest ih => simp [ih]; ring

theorem sum_map_cast (l : List CellInfo) (f : CellInfo → Nat) :
    (l.map (fun c => ((f c : Nat) : Int))).sum = (((l.map f).sum : Nat) : Int) := by
  induction l with
  | nil => simp
  | cons c rest ih => simp [ih]

theorem buildBalanceMap_sums (ins outs : List CellInfo) :
    mapCkbSum (buildBalanceMap ins outs) =
      ((sumCapacity outs : Nat) : Int) - ((sumCapacity ins : Nat) : Int) ∧
    mapUdtSum (buildBalanceMap ins outs) =
      ((sumUdt outs : Nat) : Int) - ((sumUdt ins : Nat) : Int) := by
  unfold buildBalanceMap
  obtain ⟨hi1, hi2⟩ := foldl_updateBal_sums
    (fun c => -((c.capacity : Nat) : Int)) (fun c => -((c.udt_capacity.getD 0 : Nat) : Int)) ins []
  obtain ⟨ho1, ho2⟩ := foldl_updateBal_sums
    (fun c => ((c.capacity : Nat) : Int)) (fun c => ((c.udt_capacity.getD 0 : Nat) : Int)) outs
    (ins.foldl (fun m c => updateBal m c.args (-((c.capacity : Nat) : Int))
      (-((c.udt_capacity.getD 0 : Nat) : Int))) [])
  rw [ho1, ho2, hi1, hi2]
  rw [sum_map_neg_cast ins (fun c => c.capacity),
    sum_map_neg_cast ins (fun c => c.udt_capacity.getD 0),
    sum_map_cast outs (fun c => c.capacity),
    sum_map_cast outs (fun c => c.udt_capacity.getD 0)]
  unfold sumCapacity sumUdt mapCkbSum mapUdtSum
  constructor <;> simp <;> ring

theorem filter_zero_sums (m : List (HexStr × Int × Int)) :
    mapCkbSum (m.filter (fun e => decide (e.2.1 ≠ 0 ∨ e.2.2 ≠ 0))) = mapCkbSum m ∧
    mapUdtSum (m.filter (fun e => decide (e.2.1 ≠ 0 ∨ e.2.2 ≠ 0))) = mapUdtSum m := by
  induction m with
  | nil => simp [mapCkbSum, mapUdtSum]
  | cons e rest ih =>
    simp only [mapCkbSum, mapUdtSum, List.filter_cons] at ih ⊢
    by_cases he : e.2.1 ≠ 0 ∨ e.2.2 ≠ 0
    · rw [if_pos (by simpa using he)]
      simp only [List.map_cons, List.sum_cons]
      rw [ih.1, ih.2]
      exact ⟨rfl, rfl⟩
    · rw [if_neg (by simpa using he)]
      push_neg at he
      rw [ih.1, ih.2]
      simp [he.1, he.2]

/-- C10: for every transaction built by `getTxMessage`, the per-address CKB
deltas of `balance_changes` sum to the negation of `fee` and the UDT deltas
sum to the negation of `udt_fee`; dropping the all-zero entries (which is
what `balance_changes` does relative to the raw balance map) changes
neither sum. -/
theorem getTxMessage_conservation (cch : String) (tx : TxModel) (msg : TxMessage)
    (hok : getTxMessage cch tx = .ok msg) :
    mapCkbSum msg.balance_changes = -msg.fee ∧
    mapUdtSum msg.balance_changes = -msg.udt_fee ∧
    mapCkbSum msg.balance_changes = mapCkbSum (buildBalanceMap msg.input_cells msg.output_cells) ∧
    mapUdtSum msg.balance_changes = mapUdtSum (buildBalanceMap msg.input_cells msg.output_cells) := by
  obtain ⟨cells, pwf, ocells, hpi, hoc, hmsg⟩ := getTxMessage_eq hok
  subst hmsg
  obtain ⟨hf1, hf2⟩ := filter_zero_sums (buildBalanceMap cells ocells)
  obtain ⟨hb1, hb2⟩ := buildBalanceMap_sums cells ocells
  refine ⟨?_, ?_, hf1, hf2⟩
  · show mapCkbSum (List.filter _ (buildBalanceMap cells ocells)) = _
    rw [hf1, hb1]
    ring
  · show mapUdtSum (List.filter _ (buildBalanceMap cells ocells)) = _
    rw [hf2, hb2]
    ring

/-- Witness for C10 at the concrete 1000/990 transaction. -/
theorem getTxMessage_conservation_witness :
    mapCkbSum [((⟨true, [1]⟩ : HexStr), (-10 : Int), (0 : Int))] = -(10 : Int) ∧
    mapUdtSum [((⟨true, [1]⟩ : HexStr), (-10 : Int), (0 : Int))] = -(0 : Int) := by
  have hmain := getTxMessage_conservation "h" feeDemoTx
    { input_cells := [{ args := ⟨true, [1]⟩, capacity := 1000, lock := some lockA }]
      output_cells := [{ args := ⟨true, [1]⟩, capacity := 990 }]
      fee := 10
      udt_fee := 0
      parsed_witness := none
      balance_changes := [(⟨true, [1]⟩, -10, 0)] }
    (by decide)
  exact ⟨hmain.1, hmain.2.1⟩

/-! ### Claim C7 — death lookup and trace termination -/

/-- An empty chain environment (every lookup returns `null`). -/
def emptyTraceEnv : TraceEnv := fun _ => none

/-- C7: `getLnCellDeathHash` returns a next transaction hash (the second
indexer object, by query order) together with the queried lock's code hash
iff the query returns exactly 2 objects; any other object count (0, 1, or
more than 2) yields no next transaction, and a lookup with no next
transaction terminates the `getLnTxTrace` walk immediately (no further
items are appended). -/
theorem deathHash_iff_two_objects :
    (∀ (lock : Script) (objects : List String),
      (((getLnCellDeathHash lock objects).1.isSome = true) ↔ objects.length = 2) ∧
      (objects.length = 2 →
        getLnCellDeathHash lock objects = (objects.get? 1, some lock.code_hash))) ∧
    (∀ (env : TraceEnv) (cch : String) (fuel : Nat) (currentTx : String)
        (acc : List String),
      (deathLookup env currentTx).1 = none →
      traceLoop env cch fuel currentTx acc = acc) := by
  constructor
  · intro lock objects
    constructor
    · unfold getLnCellDeathHash
      by_cases hl : objects.length = 2
      · rw [if_pos hl]
        simp only [true_iff, hl]
        rcases objects with _ | ⟨a, _ | ⟨b, rest⟩⟩ <;> simp_all
      · rw [if_neg hl]
        simp [hl]
    · intro hl
      unfold getLnCellDeathHash
      rw [if_pos hl]
  · intro env cch fuel currentTx acc hnone
    cases fuel with
    | zero => rfl
    | succ n =>
      unfold traceLoop
      rcases hd : deathLookup env currentTx with ⟨fst, snd⟩
      rw [hd] at hnone
      simp only at hnone
      subst hnone
      rfl

/-- Witness for C7: a two-object query yields the second object, and the
walk stops at once on an empty environment. -/
theorem deathHash_iff_two_objects_witness :
    getLnCellDeathHash lockA ["t1", "t2"] = (some "t2", some "a") ∧
    traceLoop emptyTraceEnv "c" 5 "t0" ["x"] = ["x"] := by
  refine ⟨?_, ?_⟩
  · have h := (deathHash_iff_two_objects.1 lockA ["t1", "t2"]).2 (by decide)
    simpa using h
  · exact deathHash_iff_two_objects.2 emptyTraceEnv "c" 5 "t0" ["x"] rfl

/-! ### Claim C8 — account balance classification -/

/-- Balance stored in the keyed UDT map at key `k` (zero when absent). -/
def mapBalAt (m : List (String × UdtBalance)) (k : String) : Nat :=
  match m.find? (fun e => e.1 == k) with
  | some e => e.2.balance
  | none => 0

/-- Cell count stored in the keyed UDT map at key `k` (zero when absent). -/
def mapCntAt (m : List (String × UdtBalance)) (k : String) : Nat :=
  match m.find? (fun e => e.1 == k) with
  | some e => e.2.cellCount
  | none => 0

/-- Well-formedness of the keyed UDT map: every entry is keyed by its own
type script, as `computeAccountBalance` constructs it. -/
def mapWf (m : List (String × UdtBalance)) : Prop :=
  ∀ e ∈ m, e.1 = udtKey e.2.typeScript

theorem udtMapInsert_at (k : String) :
    ∀ (m : List (String × UdtBalance)) (key : String) (u : UdtCfg) (amount : Nat),
      mapBalAt (udtMapInsert m key u amount) k =
        mapBalAt m k + (if k = key then amount else 0) ∧
      mapCntAt (udtMapInsert m key u amount) k =
        mapCntAt m k + (if k = key then 1 else 0)
  | [], key, u, amount => by
    by_cases hk : k = key
    · simp [udtMapInsert, mapBalAt, mapCntAt, List.find?, hk]
    · simp [udtMapInsert, mapBalAt, mapCntAt, List.find?,
        show (key == k) = false by simp [Ne.symm hk], hk]
  | (k0, b) :: rest, key, u, amount => by
    by_cases h0 : k0 = key
    · rw [udtMapInsert, if_pos h0]
      by_cases hk : k0 = k
      · have hkey : k = key := by rw [← hk, h0]
        simp [mapBalAt, mapCntAt, List.find?, show (k0 == k) = true by simp [hk],
          show (k0 == key) = true by simp [h0], hkey]
      · have hkey : ¬(k = key) := by
          intro hkk
          exact hk (by rw [h0, hkk])
        simp [mapBalAt, mapCntAt, List.find?, show (k0 == k) = false by simp [hk], hkey]
    · rw [udtMapInsert, if_neg h0]
      by_cases hk : k0 = k
      · have hkey : ¬(k = key) := by
          intro hkk
          exact h0 (by rw [hk, hkk])
        simp [mapBalAt, mapCntAt, List.find?, show (k0 == k) = true by simp [hk], hkey]
      · obtain ⟨ih1, ih2⟩ := udtMapInsert_at k rest key u amount
        simp only [mapBalAt, mapCntAt, List.find?,
          show (k0 == k) = false by simp [hk]] at ih1 ih2 ⊢
        exact ⟨ih1, ih2⟩

theorem udtMapInsert_wf :
    ∀ (m : List (String × UdtBalance)) (key : String) (u : UdtCfg) (amount : Nat),
      mapWf m → key = udtKey u.script → mapWf (udtMapInsert m key u amount)
  | [], key, u, amount, _, hkey => by
    intro e he
    simp [udtMapInsert] at he
    rw [he]
    exact hkey
  | (k0, b) :: rest, key, u, amount, hm, hkey => by
    by_cases h0 : k0 = key
    · rw [udtMapInsert, if_pos h0]
      intro e he
      rcases List.mem_cons.mp he with he | he
      · rw [he]
        exact hm (k0, b) (List.mem_cons_self _ _)
      · exact hm e (List.mem_cons_of_mem _ he)
    · rw [udtMapInsert, if_neg h0]
      intro e he
      rcases List.mem_cons.mp he with he | he
      · rw [he]
        exact hm (k0, b) (List.mem_cons_self _ _)
      · exact udtMapInsert_wf rest key u amount
          (fun x hx => hm x (List.mem_cons_of_mem _ hx)) hkey e he

theorem specCkbBalance_cons (cfgs : List UdtCfg) (c : LiveCell) (rest : List LiveCell) :
    specCkbBalance cfgs (c :: rest) =
      (if (cellUdtMatch cfgs c).isNone then c.capacity else 0) + specCkbBalance cfgs rest := by
  unfold specCkbBalance
  by_cases h : (cellUdtMatch cfgs c).isNone
  · rw [List.filter_cons, if_pos (by simpa using h), if_pos h]
    simp
  · rw [List.filter_cons, if_neg (by simpa using h), if_neg h]
    simp

theorem specCkbCount_cons (cfgs : List UdtCfg) (c : LiveCell) (rest : List LiveCell) :
    specCkbCount cfgs (c :: rest) =
      (if (cellUdtMatch cfgs c).isNone then 1 else 0) + specCkbCount cfgs rest := by
  unfold specCkbCount
  by_cases h : (cellUdtMatch cfgs c).isNone
  · rw [List.filter_cons, if_pos (by simpa using h), if_pos h]
    simp [Nat.add_comm]
  · rw [List.filter_cons, if_neg (by simpa using h), if_neg h]
    simp

theorem specUdtBalance_cons (cfgs : List UdtCfg) (c : LiveCell) (rest : List LiveCell)
    (k : String) :
    specUdtBalance cfgs (c :: rest) k =
      (if matchedKey cfgs c = some k then decodeUdtAmount c.data else 0) +
        specUdtBalance cfgs rest k := by
  unfold specUdtBalance
  by_cases h : matchedKey cfgs c = some k
  · rw [List.filter_cons, if_pos (by simpa using h), if_pos h]
    simp
  · rw [List.filter_cons, if_neg (by simpa using h), if_neg h]
    simp

theorem specUdtCount_cons (cfgs : List UdtCfg) (c : LiveCell) (rest : List LiveCell)
    (k : String) :
    specUdtCount cfgs (c :: rest) k =
      (if matchedKey cfgs c = some k then 1 else 0) + specUdtCount cfgs rest k := by
  unfold specUdtCount
  by_cases h : matchedKey cfgs c = some k
  · rw [List.filter_cons, if_pos (by simpa using h), if_pos h]
    simp [Nat.add_comm]
  · rw [List.filter_cons, if_neg (by simpa using h), if_neg h]
    simp

theorem balanceFold_invariant (cfgs : List UdtCfg) :
    ∀ (cellsL : List LiveCell) (st : Nat × Nat × List (String × UdtBalance)),
      (cellsL.foldl (balanceStep cfgs) st).1 = st.1 + specCkbBalance cfgs cellsL ∧
      (cellsL.foldl (balanceStep cfgs) st).2.1 = st.2.1 + specCkbCount cfgs cellsL ∧
      (∀ k, mapBalAt (cellsL.foldl (balanceStep cfgs) st).2.2 k =
        mapBalAt st.2.2 k + specUdtBalance cfgs cellsL k) ∧
      (∀ k, mapCntAt (cellsL.foldl (balanceStep cfgs) st).2.2 k =
        mapCntAt st.2.2 k + specUdtCount cfgs cellsL k) ∧
      (mapWf st.2.2 → mapWf (cellsL.foldl (balanceStep cfgs) st).2.2)
  | [], st => by
    simp [specCkbBalance, specCkbCount, specUdtBalance, specUdtCount]
  | c :: rest, st => by
    obtain ⟨ih1, ih2, ih3, ih4, ih5⟩ := balanceFold_invariant cfgs rest (balanceStep cfgs st c)
    rw [List.foldl_cons]
    cases hty : c.type with
    | none =>
      have hmatch : cellUdtMatch cfgs c = none := by simp [cellUdtMatch, hty]
      have hstep : balanceStep cfgs st c = (st.1 + c.capacity, st.2.1 + 1, st.2.2) := by
        simp [balanceStep, hty]
      rw [hstep] at ih1 ih2 ih3 ih4 ih5 ⊢
      dsimp only at ih1 ih2 ih3 ih4 ih5 ⊢
      refine ⟨?_, ?_, ?_, ?_, ih5⟩
      · rw [ih1, specCkbBalance_cons, hmatch]
        simp [Option.isNone]
        omega
      · rw [ih2, specCkbCount_cons, hmatch]
        simp [Option.isNone]
        omega
      · intro k
        have hmk : ¬(matchedKey cfgs c = some k) := by simp [matchedKey, hmatch]
        rw [ih3 k, specUdtBalance_cons, if_neg hmk]
        omega
      · intro k
        have hmk : ¬(matchedKey cfgs c = some k) := by simp [matchedKey, hmatch]
        rw [ih4 k, specUdtCount_cons, if_neg hmk]
        omega
    | some t =>
      cases hfind : cfgs.find? (fun u => scriptEquals u.script t) with
      | none =>
        have hmatch : cellUdtMatch cfgs c = none := by simp [cellUdtMatch, hty, hfind]
        have hstep : balanceStep cfgs st c = (st.1 + c.capacity, st.2.1 + 1, st.2.2) := by
          simp [balanceStep, hty, hfind]
        rw [hstep] at ih1 ih2 ih3 ih4 ih5 ⊢
        dsimp only at ih1 ih2 ih3 ih4 ih5 ⊢
        refine ⟨?_, ?_, ?_, ?_, ih5⟩
        · rw [ih1, specCkbBalance_cons, hmatch]
          simp [Option.isNone]
          omega
        · rw [ih2, specCkbCount_cons, hmatch]
          simp [Option.isNone]
          omega
        · intro k
          have hmk : ¬(matchedKey cfgs c = some k) := by simp [matchedKey, hmatch]
          rw [ih3 k, specUdtBalance_cons, if_neg hmk]
          omega
        · intro k
          have hmk : ¬(matchedKey cfgs c = some k) := by simp [matchedKey, hmatch]
          rw [ih4 k, specUdtCount_cons, if_neg hmk]
          omega
      | some u =>
        have hmatch : cellUdtMatch cfgs c = some u := by simp [cellUdtMatch, hty, hfind]
        have hmk : matchedKey cfgs c = some (udtKey u.script) := by
          simp [matchedKey, hmatch]
        have hstep : balanceStep cfgs st c =
            (st.1, st.2.1, udtMapInsert st.2.2 (udtKey u.script) u (decodeUdtAmount c.data)) := by
          simp [balanceStep, hty, hfind]
        rw [hstep] at ih1 ih2 ih3 ih4 ih5 ⊢
        dsimp only at ih1 ih2 ih3 ih4 ih5 ⊢
        refine ⟨?_, ?_, ?_, ?_, ?_⟩
        · rw [ih1, specCkbBalance_cons, hmatch]
          simp [Option.isNone]
        · rw [ih2, specCkbCount_cons, hmatch]
          simp [Option.isNone]
        · intro k
          obtain ⟨hb, -⟩ := udtMapInsert_at k st.2.2 (udtKey u.script) u (decodeUdtAmount c.data)
          rw [ih3 k, hb, specUdtBalance_cons]
          by_cases hk : k = udtKey u.script
          · rw [if_pos hk, if_pos (by rw [hmk, hk])]
            omega
          · rw [if_neg hk, if_neg (by rw [hmk]; intro hc; injection hc with hc; exact hk hc.symm)]
            omega
        · intro k
          obtain ⟨-, hc2⟩ := udtMapInsert_at k st.2.2 (udtKey u.script) u (decodeUdtAmount c.data)
          rw [ih4 k, hc2, specUdtCount_cons]
          by_cases hk : k = udtKey u.script
          · rw [if_pos hk, if_pos (by rw [hmk, hk])]
            omega
          · rw [if_neg hk, if_neg (by rw [hmk]; intro hc; injection hc with hc; exact hk hc.symm)]
            omega
        · intro hwf
          exact ih5 (udtMapInsert_wf st.2.2 (udtKey u.script) u (decodeUdtAmount c.data) hwf rfl)

theorem udtBalanceFor_of_wf :
    ∀ (m : List (String × UdtBalance)), mapWf m → ∀ (k : String),
      udtBalanceFor (m.map (·.2)) k = mapBalAt m k ∧
      udtCountFor (m.map (·.2)) k = mapCntAt m k
  | [], _, k => by simp [udtBalanceFor, udtCountFor, mapBalAt, mapCntAt]
  | e :: rest, hwf, k => by
    have he : e.1 = udtKey e.2.typeScript := hwf e (List.mem_cons_self _ _)
    have hrest := udtBalanceFor_of_wf rest (fun x hx => hwf x (List.mem_cons_of_mem _ hx)) k
    by_cases hk : e.1 = k
    · simp [udtBalanceFor, udtCountFor, mapBalAt, mapCntAt, List.find?,
        show (udtKey e.2.typeScript == k) = true by simp [← he, hk],
        show (e.1 == k) = true by simp [hk]]
    · simp only [udtBalanceFor, udtCountFor, mapBalAt, mapCntAt, List.map_cons, List.find?,
        show (udtKey e.2.typeScript == k) = false by simp [← he, hk],
        show (e.1 == k) = false by simp [hk]] at hrest ⊢
      exact hrest

/-- C8: in `computeAccountBalance`, every cell with no type script and every
cell whose type script matches no registered UDT script (comparison via
`scriptEquals`: case-insensitive on code hash and args, exact on hash type)
adds its capacity to `ckbBalance` and increments `ckbCellCount`; every cell
matching a registered UDT script adds to that UDT's balance the
little-endian 128-bit integer decoded from the first 16 bytes of its data
(zero when the data is shorter than 16 bytes) and increments that UDT's
`cellCount`. -/
theorem computeAccountBalance_classifies (cells : List LiveCell) (udtCfgInfos : List UdtCfg) :
    (computeAccountBalance cells udtCfgInfos).ckbBalance = specCkbBalance udtCfgInfos cells ∧
    (computeAccountBalance cells udtCfgInfos).ckbCellCount = specCkbCount udtCfgInfos cells ∧
    (∀ k, udtBalanceFor (computeAccountBalance cells udtCfgInfos).udtBalances k =
      specUdtBalance udtCfgInfos cells k) ∧
    (∀ k, udtCountFor (computeAccountBalance cells udtCfgInfos).udtBalances k =
      specUdtCount udtCfgInfos cells k) := by
  obtain ⟨h1, h2, h3, h4, h5⟩ := balanceFold_invariant udtCfgInfos cells (0, 0, [])
  have hwf : mapWf (cells.foldl (balanceStep udtCfgInfos) (0, 0, [])).2.2 :=
    h5 (by intro e he; cases he)
  refine ⟨?_, ?_, ?_, ?_⟩
  · show (cells.foldl (balanceStep udtCfgInfos) (0, 0, [])).1 = _
    rw [h1]
    simp
  · show (cells.foldl (balanceStep udtCfgInfos) (0, 0, [])).2.1 = _
    rw [h2]
    simp
  · intro k
    show udtBalanceFor ((cells.foldl (balanceStep udtCfgInfos) (0, 0, [])).2.2.map (·.2)) k = _
    rw [(udtBalanceFor_of_wf _ hwf k).1, h3 k]
    simp [mapBalAt, List.find?]
  · intro k
    show udtCountFor ((cells.foldl (balanceStep udtCfgInfos) (0, 0, [])).2.2.map (·.2)) k = _
    rw [(udtBalanceFor_of_wf _ hwf k).2, h4 k]
    simp [mapCntAt, List.find?]
